import Mathlib

/-
  Shallow embedding of the realtime-streaming-api core
  (src/app/models.py, src/app/stream_manager.py and the topic filter /
  SSE delivery loop of src/app/api.py), together with proofs of the
  specification's claims about it.

  Modelling conventions:
  * Python methods become pure Lean functions; methods that may mutate
    their object are written in state-passing style, returning the new
    object alongside the result.
  * asyncio locks serialize the operations; the embedding models each
    locked operation as one atomic step.
  * uuid4-generated identifiers are modelled as caller-supplied ids
    (the theorems use explicitly distinct ids).
  * Payloads in this repository are flat JSON maps of primitives
    (see producer.py), so the payload type models exactly that shape.
  * EventHistory._event_index is a lookup hint that is written but never
    read by any retrieval path (get_events_after scans _buffer directly),
    so it is omitted from the state.
-/

namespace Streaming

/-- Event categories, from models.py EventType (a str Enum). -/
inductive EventType where
  | data
  | heartbeat
  | system
  deriving DecidableEq, Repr

/-- The .value of the str Enum member, as used in api.py and models.py. -/
def EventType.value : EventType → String
  | .data => "data"
  | .heartbeat => "heartbeat"
  | .system => "system"

/-- Primitive JSON values appearing in this repository's payloads. -/
inductive JsonPrim where
  | str (s : String)
  | num (n : Int)
  | boolean (b : Bool)
  | null
  deriving DecidableEq, Repr

/-- Payloads (the data: Any field): in this repository every payload is a
flat map of primitives (metric/log/alert samples, heartbeat fields), a
primitive, or a flat array of primitives. -/
inductive JsonValue where
  | prim (p : JsonPrim)
  | obj (fields : List (String × JsonPrim))
  | arr (items : List JsonPrim)
  deriving DecidableEq, Repr

/-- JSON string escaping as performed by json.dumps for the characters
that can occur in this repository's payloads. -/
def escapeChar (c : Char) : String :=
  if c = '"' then "\\\""
  else if c = '\\' then "\\\\"
  else if c = '\n' then "\\n"
  else if c = '\t' then "\\t"
  else if c = '\r' then "\\r"
  else String.singleton c

/-- Escape every character of a string, json.dumps style. -/
def escapeString (s : String) : String :=
  String.join (s.data.map escapeChar)

/-- json.dumps of a primitive (default separators). -/
def jsonPrimDumps : JsonPrim → String
  | .str s => "\"" ++ escapeString s ++ "\""
  | .num n => toString n
  | .boolean b => if b then "true" else "false"
  | .null => "null"

/-- json.dumps of a payload, with Python's default separators
(comma-space between items, colon-space after keys). -/
def jsonDumps : JsonValue → String
  | .prim p => jsonPrimDumps p
  | .obj fields =>
      "\x7b" ++
        String.intercalate ", "
          (fields.map (fun kv => "\"" ++ escapeString kv.1 ++ "\": " ++ jsonPrimDumps kv.2))
        ++ "\x7d"
  | .arr items =>
      "[" ++ String.intercalate ", " (items.map jsonPrimDumps) ++ "]"

/-- StreamEvent from models.py.  The timestamp is display-only in the
source (never used for ordering); it is modelled as a number. -/
structure StreamEvent where
  id : String
  event : EventType
  data : JsonValue
  timestamp : Nat
  deriving DecidableEq, Repr

/-- Python str.join with separator newline, as used by to_sse_format. -/
def joinLines : List String → String
  | [] => ""
  | [l] => l
  | l :: rest => l ++ "\n" ++ joinLines rest

/-- models.py StreamEvent.to_sse_format: the SSE wire encoding. -/
def StreamEvent.to_sse_format (e : StreamEvent) : String :=
  joinLines
    ["id: " ++ e.id,
     "event: " ++ e.event.value,
     "data: " ++ jsonDumps e.data,
     "retry: 5000",
     ""] ++ "\n"

/-- collections.deque append with a maxlen: the oldest elements are
discarded so that at most maxlen remain. -/
def dequePush {α : Type} (maxlen : Nat) (b : List α) (e : α) : List α :=
  let b' := b ++ [e]
  b'.drop (b'.length - maxlen)

/-- EventHistory from stream_manager.py: ring buffer of recent events
(front of the list = oldest). -/
structure EventHistory where
  max_size : Nat
  buffer : List StreamEvent
  deriving DecidableEq, Repr

/-- EventHistory.__init__. -/
def EventHistory.init (max_size : Nat) : EventHistory :=
  { max_size := max_size, buffer := [] }

/-- EventHistory.add: append to the deque (ring semantics). -/
def EventHistory.add (h : EventHistory) (e : StreamEvent) : EventHistory :=
  { h with buffer := dequePush h.max_size h.buffer e }

/-- The scan-with-break of EventHistory.get_events_after: index of the
first event whose id matches, if any. -/
def findEventIdx (lid : String) : List StreamEvent → Option Nat
  | [] => none
  | e :: rest =>
    if e.id == lid then some 0
    else (findEventIdx lid rest).map (· + 1)

/-- EventHistory.get_events_after, state-passing: the method reads the
buffer under the lock and writes nothing back to it. -/
def EventHistory.get_events_after (h : EventHistory) (last_event_id : String) :
    List StreamEvent × EventHistory :=
  (match findEventIdx last_event_id h.buffer with
   | none => []
   | some i => h.buffer.drop (i + 1),
   h)

/-- EventHistory.get_size. -/
def EventHistory.get_size (h : EventHistory) : Nat :=
  h.buffer.length

/-- EventHistory.get_latest_event_id. -/
def EventHistory.get_latest_event_id (h : EventHistory) : Option String :=
  h.buffer.getLast?.map (fun e => e.id)

/-- The last min(N, length) elements of a list, in order: what a deque
with maxlen N retains. -/
def lastN {α : Type} (N : Nat) (l : List α) : List α :=
  l.drop (l.length - N)

/-- Modelled from the spec (section 4.3 suffixAfter): the events strictly
after the first one matching the id, in original order; empty when the id
is not retained.  Used only to compare against the source definition. -/
def suffixAfterSpec (buf : List StreamEvent) (lid : String) : List StreamEvent :=
  (buf.dropWhile (fun e => !(e.id == lid))).tail

/-- asyncio.Queue with a maxsize, holding pending events (front =
next to be dequeued). -/
structure Queue where
  maxsize : Nat
  items : List StreamEvent
  deriving DecidableEq, Repr

/-- asyncio.Queue.full: False whenever maxsize is not positive. -/
def Queue.full (q : Queue) : Bool :=
  decide (0 < q.maxsize) && decide (q.maxsize ≤ q.items.length)

/-- asyncio.Queue.put_nowait: none models the QueueFull exception. -/
def Queue.put_nowait (q : Queue) (e : StreamEvent) : Option Queue :=
  if q.full then none
  else some { q with items := q.items ++ [e] }

/-- ClientInfo from stream_manager.py (connected_at is display-only and
omitted). -/
structure ClientInfo where
  client_id : String
  queue : Queue
  client_name : String
  tags : List String
  topics : Option (List String)
  events_received : Nat
  deriving DecidableEq, Repr

/-- Python "client_name or anonymous-default": None and the empty string
are both falsy. -/
def orAnonymous : Option String → String
  | none => "anonymous"
  | some s => if s == "" then "anonymous" else s

/-- StreamManager state: the registry dict (insertion-ordered list of
id/session pairs), the shared queue capacity, and the history. -/
structure StreamManager where
  clients : List (String × ClientInfo)
  max_queue_size : Nat
  event_history : EventHistory
  deriving DecidableEq, Repr

/-- StreamManager.__init__. -/
def StreamManager.init (max_queue_size history_size : Nat) : StreamManager :=
  { clients := [],
    max_queue_size := max_queue_size,
    event_history := EventHistory.init history_size }

/-- StreamManager.register_client: build a fresh bounded queue and store
the session (the uuid4 id is supplied by the caller in the model). -/
def StreamManager.register_client (m : StreamManager) (client_id : String)
    (client_name : Option String) (tags : Option (List String))
    (topics : Option (List String)) : StreamManager :=
  { m with clients := m.clients ++
      [(client_id,
        { client_id := client_id,
          queue := { maxsize := m.max_queue_size, items := [] },
          client_name := orAnonymous client_name,
          tags := tags.getD [],
          topics := topics,
          events_received := 0 })] }

/-- StreamManager.unregister_client: idempotent removal by id. -/
def StreamManager.unregister_client (m : StreamManager) (client_id : String) :
    StreamManager :=
  { m with clients := m.clients.filter (fun p => !(p.1 == client_id)) }

/-- self._clients.get(client_id), as used by get_client_info. -/
def StreamManager.findClient (m : StreamManager) (client_id : String) :
    Option ClientInfo :=
  (m.clients.find? (fun p => p.1 == client_id)).map (fun p => p.2)

/-- StreamManager.get_client_count. -/
def StreamManager.get_client_count (m : StreamManager) : Nat :=
  m.clients.length

/-- The for-loop of StreamManager.broadcast over the session snapshot:
returns the updated sessions and the ids marked disconnected, in
iteration order. -/
def broadcastLoop (e : StreamEvent) :
    List (String × ClientInfo) → List (String × ClientInfo) × List String
  | [] => ([], [])
  | (cid, ci) :: rest =>
    let r := broadcastLoop e rest
    match ci.queue.put_nowait e with
    | some q' =>
        ((cid, { ci with queue := q', events_received := ci.events_received + 1 }) :: r.1,
         r.2)
    | none => ((cid, ci) :: r.1, cid :: r.2)

/-- StreamManager.broadcast: record in history, attempt a non-blocking
enqueue to every session, then unregister every session whose queue was
full. -/
def StreamManager.broadcast (m : StreamManager) (e : StreamEvent) : StreamManager :=
  let r := broadcastLoop e m.clients
  r.2.foldl StreamManager.unregister_client
    { m with event_history := m.event_history.add e, clients := r.1 }

/-- The for-loop of StreamManager.replay_events: non-blocking enqueue of
each event, stopping at the first full queue; returns the count enqueued
and the final queue. -/
def replayLoop : List StreamEvent → Queue → Nat × Queue
  | [], q => (0, q)
  | e :: es, q =>
    match q.put_nowait e with
    | some q' =>
        let r := replayLoop es q'
        (r.1 + 1, r.2)
    | none => (0, q)

/-- StreamManager.replay_events, state-passing: look up the suffix in the
history and enqueue it into the target queue. -/
def StreamManager.replay_events (m : StreamManager) (last_event_id : String)
    (queue : Queue) : Nat × Queue × StreamManager :=
  let r := m.event_history.get_events_after last_event_id
  let lr := replayLoop r.1 queue
  (lr.1, lr.2, { m with event_history := r.2 })

/-- dict.get("type") on a payload: first binding of the key, if any. -/
def lookupField : List (String × JsonPrim) → String → Option JsonPrim
  | [], _ => none
  | (k, v) :: rest, key => if k == key then some v else lookupField rest key

/-- api.py line 154: the event's effective topic — the "type" payload
field when the payload is a dict containing it, else the category value. -/
def effectiveTopic (event : StreamEvent) : JsonPrim :=
  match event.data with
  | .obj fields =>
      match lookupField fields "type" with
      | some v => v
      | none => .str event.event.value
  | _ => .str event.event.value

/-- Python equality of a payload value against a topic string: true only
for an equal string (a non-string never equals a string). -/
def jsonPrimEqStr : JsonPrim → String → Bool
  | .str s, t => s == t
  | _, _ => false

/-- api.py lines 152-159, the delivery-loop topic filter: true when the
dequeued event is yielded, false when the loop continues past it.  The
Python test "if topic_list:" is false for both None and the empty list. -/
def shouldDeliver (topic_list : Option (List String)) (event : StreamEvent) : Bool :=
  match topic_list with
  | none => true
  | some ts =>
    if ts.isEmpty then true
    else if event.event.value == "heartbeat" then ts.contains "heartbeat"
    else ts.any (fun t => jsonPrimEqStr (effectiveTopic event) t)

/-- Concrete heartbeat event used to instantiate the heartbeat filter rule. -/
def hb5 : StreamEvent :=
  { id := "h5", event := .heartbeat, data := .obj [("clients", .num 0)], timestamp := 0 }

/-- Concrete heartbeat event for the cpu-subscription scenario. -/
def hb6 : StreamEvent :=
  { id := "h6", event := .heartbeat, data := .obj [("clients", .num 1)], timestamp := 0 }

/-- Concrete data event whose effective topic is memory. -/
def mem6 : StreamEvent :=
  { id := "m6", event := .data,
    data := .obj [("type", .str "memory"), ("value", .num 42)], timestamp := 0 }

/-- Concrete event for the wire-encoding example. -/
def ev8 : StreamEvent :=
  { id := "test-123", event := .data,
    data := .obj [("message", .str "hello")], timestamp := 0 }

/-- Concrete numbered data events (ids e1, e2, ...) used by the history
and replay examples. -/
def mkEv (i : Nat) : StreamEvent :=
  { id := "e" ++ toString i, event := .data,
    data := .obj [("num", .num (Int.ofNat i))], timestamp := i }

/-- The session state produced by register_client with no metadata: an
empty bounded queue and zeroed counter. -/
def freshClient (cid : String) (cap : Nat) : ClientInfo :=
  { client_id := cid, queue := { maxsize := cap, items := [] },
    client_name := "anonymous", tags := [], topics := none, events_received := 0 }

/-- A metadata-free session whose queue holds the given events, one
successful delivery per event. -/
def filledClient (cid : String) (cap : Nat) (evs : List StreamEvent) : ClientInfo :=
  { client_id := cid, queue := { maxsize := cap, items := evs },
    client_name := "anonymous", tags := [], topics := none,
    events_received := evs.length }

/-- A concrete session whose capacity-1 queue is already at capacity. -/
def wFullCi : ClientInfo :=
  { client_id := "w", queue := { maxsize := 1, items := [mkEv 10] },
    client_name := "anonymous", tags := [], topics := none, events_received := 1 }

/-- A concrete one-session manager whose only session is at capacity. -/
def wFullMgr : StreamManager :=
  { clients := [("w", wFullCi)], max_queue_size := 1,
    event_history := { max_size := 3, buffer := [mkEv 10] } }

/-- A concrete session with an empty capacity-2 queue. -/
def vRoomCi : ClientInfo :=
  { client_id := "v", queue := { maxsize := 2, items := [] },
    client_name := "anonymous", tags := [], topics := none, events_received := 0 }

/-- A concrete one-session manager whose only session has headroom. -/
def vRoomMgr : StreamManager :=
  { clients := [("v", vRoomCi)], max_queue_size := 2,
    event_history := { max_size := 3, buffer := [] } }

/-- C8: for every event, to_sse_format is exactly the identifier line, the
category line, the payload line, the fixed retry-hint line and a blank
terminator line, in that order; and the concrete example event encodes to
the expected block. -/
theorem sse_wire_encoding :
    (∀ e : StreamEvent, e.to_sse_format =
      "id: " ++ e.id ++ "\n" ++ "event: " ++ e.event.value ++ "\n" ++
      "data: " ++ jsonDumps e.data ++ "\n" ++ "retry: 5000" ++ "\n" ++ "\n")
    ∧ ev8.to_sse_format =
      "id: test-123\nevent: data\ndata: \x7b\"message\": \"hello\"\x7d\nretry: 5000\n\n" := by
  constructor
  · intro e
    simp [StreamEvent.to_sse_format, joinLines, String.append_assoc]
    rw [← String.append_assoc "\n" "event: ", ← String.append_assoc "\n" "data: "]
    simp
  · rfl

/-- C5: with an active (non-empty) topic list, a heartbeat event passes the
delivery-loop filter iff the literal heartbeat topic is in the list; with
no topic list at all, every heartbeat passes. -/
theorem heartbeat_filter_rule :
    (∀ (ts : List String) (e : StreamEvent), e.event = EventType.heartbeat → ts ≠ [] →
      (shouldDeliver (some ts) e = true ↔ "heartbeat" ∈ ts))
    ∧ (∀ e : StreamEvent, e.event = EventType.heartbeat → shouldDeliver none e = true) := by
  constructor
  · intro ts e he hts
    simp [shouldDeliver, he, EventType.value, hts, List.isEmpty_iff, List.elem_iff]
  · intro e _
    rfl

/-- Witness for C5 at a concrete heartbeat and topic lists. -/
theorem heartbeat_filter_rule_witness :
    shouldDeliver (some ["heartbeat", "cpu"]) hb5 = true ∧ shouldDeliver none hb5 = true :=
  ⟨(heartbeat_filter_rule.1 ["heartbeat", "cpu"] hb5 rfl (by decide)).mpr (by decide),
   heartbeat_filter_rule.2 hb5 rfl⟩

/-- C6 counterexample: a session subscribed to exactly the cpu topic does
NOT receive a heartbeat event — the delivery loop skips it, refuting the
claim that it is delivered despite the narrower subscription. -/
theorem topic_filter_cpu_heartbeat_cex :
    ¬ (shouldDeliver (some ["cpu"]) hb6 = true) := by decide

/-- C6 amended: a session subscribed to exactly the cpu topic receives
neither a data event whose effective topic is memory nor a heartbeat event
(the literal heartbeat topic is absent from its non-empty topic list). -/
theorem topic_filter_cpu_amended :
    shouldDeliver (some ["cpu"]) mem6 = false ∧ shouldDeliver (some ["cpu"]) hb6 = false := by
  decide

/-- C10: a session registered with an empty (but non-null) topic list is
treated by the delivery loop exactly like a session with no topic filter:
every event of every category is delivered. -/
theorem empty_topiclist_unfiltered :
    ∀ e : StreamEvent,
      shouldDeliver (some []) e = shouldDeliver none e ∧
      shouldDeliver (some []) e = true := by
  intro e
  exact ⟨rfl, rfl⟩

/-- C9: replay is read-only with respect to history — the manager returned
by replay_events carries the original history, and the suffix lookup
itself returns its history state (contents, order and size) unchanged. -/
theorem replay_history_frame :
    ∀ (m : StreamManager) (lid : String) (q : Queue),
      (m.replay_events lid q).2.2.event_history = m.event_history ∧
      (m.event_history.get_events_after lid).2 = m.event_history ∧
      (m.event_history.get_events_after lid).2.buffer = m.event_history.buffer ∧
      (m.event_history.get_events_after lid).2.get_size = m.event_history.get_size := by
  intro m lid q
  exact ⟨rfl, rfl, rfl, rfl⟩

/-- The scan-and-slice of get_events_after computes exactly the suffix
strictly after the first event matching the id. -/
lemma findIdx_suffix (lid : String) :
    ∀ bs : List StreamEvent,
      (match findEventIdx lid bs with
       | none => ([] : List StreamEvent)
       | some i => bs.drop (i + 1)) = suffixAfterSpec bs lid := by
  intro bs
  induction bs with
  | nil => rfl
  | cons e rest ih =>
    cases hid : (e.id == lid) with
    | true =>
      simp [findEventIdx, suffixAfterSpec, hid, List.dropWhile_cons]
    | false =>
      simp only [findEventIdx, hid, suffixAfterSpec, List.dropWhile_cons, Bool.not_false,
        if_true, if_false, Bool.false_eq_true]
      cases hfind : findEventIdx lid rest with
      | none =>
        simpa [hfind, suffixAfterSpec] using ih
      | some i =>
        simpa [hfind, suffixAfterSpec] using ih

/-- When event ids are unique, the suffix strictly after the last event is
empty. -/
lemma suffix_last_nil :
    ∀ (bs : List StreamEvent) (e : StreamEvent),
      (bs.map (fun x => x.id)).Nodup → bs.getLast? = some e →
      suffixAfterSpec bs e.id = [] := by
  intro bs
  induction bs with
  | nil => intro e _ hl; cases hl
  | cons a rest ih =>
    intro e hnd hl
    cases rest with
    | nil =>
      have ha : a = e := by
        simpa [List.getLast?] using hl
      subst ha
      simp [suffixAfterSpec, List.dropWhile]
    | cons b rest2 =>
      rw [List.getLast?_cons_cons] at hl
      have hmem : e ∈ b :: rest2 := List.mem_of_mem_getLast? (by rw [hl]; rfl)
      have hnd2 : (a.id :: (b :: rest2).map (fun x => x.id)).Nodup := by
        rw [List.map_cons] at hnd
        exact hnd
      have hnd' := List.nodup_cons.mp hnd2
      have hne : (a.id == e.id) = false := by
        rw [beq_eq_false_iff_ne]
        intro hbe
        exact hnd'.1 (hbe ▸ List.mem_map_of_mem (fun x => x.id) hmem)
      have hstep : suffixAfterSpec (a :: b :: rest2) e.id = suffixAfterSpec (b :: rest2) e.id := by
        simp [suffixAfterSpec, List.dropWhile_cons, hne]
      rw [hstep]
      exact ih e hnd'.2 hl

/-- C3: get_events_after returns exactly the events strictly after the
first event matching the id, in order; the empty list when the id is not
retained and (for unique ids) when the id is the most recent event's; and
after broadcasting e1..e5 into history capacity 5, the suffix after e2 is
[e3, e4, e5]. -/
theorem history_suffix_after :
    (∀ (h : EventHistory) (lid : String),
        (h.get_events_after lid).1 = suffixAfterSpec h.buffer lid)
    ∧ (∀ (h : EventHistory) (lid : String),
        (∀ e ∈ h.buffer, e.id ≠ lid) → (h.get_events_after lid).1 = [])
    ∧ (∀ (h : EventHistory) (lid : String),
        (h.buffer.map (fun x => x.id)).Nodup → h.get_latest_event_id = some lid →
        (h.get_events_after lid).1 = [])
    ∧ ((([mkEv 1, mkEv 2, mkEv 3, mkEv 4, mkEv 5].foldl StreamManager.broadcast
          (StreamManager.init 100 5)).event_history.get_events_after "e2").1
        = [mkEv 3, mkEv 4, mkEv 5])
    ∧ ((([mkEv 1, mkEv 2, mkEv 3, mkEv 4, mkEv 5].foldl StreamManager.broadcast
          (StreamManager.init 100 5)).event_history.get_events_after "nonexistent").1
        = []) := by
  have hspec : ∀ (h : EventHistory) (lid : String),
      (h.get_events_after lid).1 = suffixAfterSpec h.buffer lid := by
    intro h lid
    simpa [EventHistory.get_events_after] using findIdx_suffix lid h.buffer
  refine ⟨hspec, ?_, ?_, by decide, by decide⟩
  · intro h lid hnone
    rw [hspec]
    unfold suffixAfterSpec
    have : h.buffer.dropWhile (fun e => !(e.id == lid)) = [] := by
      rw [List.dropWhile_eq_nil_iff]
      intro x hx
      simpa using hnone x hx
    rw [this]
    rfl
  · intro h lid hnd hlast
    obtain ⟨e, he, heid⟩ := Option.map_eq_some'.mp hlast
    rw [hspec]
    exact heid ▸ suffix_last_nil h.buffer e hnd he

/-- Witness for C3: at a concrete five-event history, the suffix after the
most recent id and after an unknown id are both empty. -/
theorem history_suffix_after_witness :
    ((([mkEv 1, mkEv 2, mkEv 3, mkEv 4, mkEv 5].foldl StreamManager.broadcast
        (StreamManager.init 100 5)).event_history.get_events_after "e5").1 = [])
    ∧ ((([mkEv 1, mkEv 2, mkEv 3, mkEv 4, mkEv 5].foldl StreamManager.broadcast
        (StreamManager.init 100 5)).event_history.get_events_after "zzz").1 = []) :=
  ⟨history_suffix_after.2.2.1 _ "e5" (by decide) (by decide),
   history_suffix_after.2.1 _ "zzz" (by decide)⟩

/-- Pushing onto the retained last-N window extends the window of the
underlying full sequence: deque-with-maxlen absorption. -/
lemma dequePush_lastN {α : Type} (N : Nat) (l : List α) (e : α) :
    dequePush N (lastN N l) e = lastN N (l ++ [e]) := by
  unfold dequePush lastN
  rw [List.drop_append_eq_append_drop, List.drop_append_eq_append_drop, List.drop_drop]
  have hlen : (l.drop (l.length - N)).length = l.length - (l.length - N) :=
    List.length_drop _ _
  congr 1
  · congr 1
    simp only [List.length_append, List.length_drop, List.length_cons, List.length_nil]
    omega
  · congr 1
    simp only [List.length_append, List.length_drop, List.length_cons, List.length_nil]
    omega

/-- Unfolding equation for the buffer after an add. -/
lemma add_buffer_eq (h : EventHistory) (e : StreamEvent) :
    (EventHistory.add h e).buffer = dequePush h.max_size h.buffer e := rfl

/-- Adds never change the capacity. -/
lemma add_max_size_eq (h : EventHistory) (e : StreamEvent) :
    (EventHistory.add h e).max_size = h.max_size := rfl

/-- Folding adds over a history whose buffer respects the capacity keeps
exactly the most recent max_size events of the full stream. -/
lemma foldl_add_buffer :
    ∀ (es : List StreamEvent) (h : EventHistory),
      h.buffer.length ≤ h.max_size →
      (es.foldl EventHistory.add h).buffer = lastN h.max_size (h.buffer ++ es) ∧
      (es.foldl EventHistory.add h).max_size = h.max_size := by
  intro es
  induction es using List.reverseRecOn with
  | nil =>
    intro h hle
    constructor
    · simp [lastN, Nat.sub_eq_zero_of_le hle]
    · rfl
  | append_singleton es e ih =>
    intro h hle
    obtain ⟨ihb, ihm⟩ := ih h hle
    constructor
    · rw [List.foldl_append]
      simp only [List.foldl_cons, List.foldl_nil, add_buffer_eq, ihb, ihm]
      rw [dequePush_lastN, List.append_assoc]
    · rw [List.foldl_append]
      simp only [List.foldl_cons, List.foldl_nil, add_max_size_eq, ihm]

/-- C4: the history is a fixed-capacity ring — after recording any event
sequence into an empty history of capacity N, the buffer is exactly the
last N events in insertion order (the oldest evicted) and its size never
exceeds N; concretely, ten broadcasts into capacity 5 leave size 5, latest
id e10, and an empty suffix after the evicted e1. -/
theorem history_ring_eviction :
    (∀ (N : Nat) (es : List StreamEvent),
        (es.foldl EventHistory.add (EventHistory.init N)).buffer
          = es.drop (es.length - N) ∧
        (es.foldl EventHistory.add (EventHistory.init N)).get_size ≤ N)
    ∧ (([mkEv 1, mkEv 2, mkEv 3, mkEv 4, mkEv 5, mkEv 6, mkEv 7, mkEv 8, mkEv 9,
          mkEv 10].foldl StreamManager.broadcast
          (StreamManager.init 100 5)).event_history.get_size = 5)
    ∧ (([mkEv 1, mkEv 2, mkEv 3, mkEv 4, mkEv 5, mkEv 6, mkEv 7, mkEv 8, mkEv 9,
          mkEv 10].foldl StreamManager.broadcast
          (StreamManager.init 100 5)).event_history.get_latest_event_id = some "e10")
    ∧ ((([mkEv 1, mkEv 2, mkEv 3, mkEv 4, mkEv 5, mkEv 6, mkEv 7, mkEv 8, mkEv 9,
          mkEv 10].foldl StreamManager.broadcast
          (StreamManager.init 100 5)).event_history.get_events_after "e1").1 = []) := by
  refine ⟨?_, by decide, by decide, by decide⟩
  intro N es
  obtain ⟨hb, _⟩ := foldl_add_buffer es (EventHistory.init N) (by simp [EventHistory.init])
  have hbuf : (es.foldl EventHistory.add (EventHistory.init N)).buffer
      = es.drop (es.length - N) := by
    simpa [EventHistory.init, lastN] using hb
  refine ⟨hbuf, ?_⟩
  unfold EventHistory.get_size
  rw [hbuf]
  simp only [List.length_drop]
  omega

/-- A full queue rejects the non-blocking put. -/
lemma put_nowait_of_full (q : Queue) (e : StreamEvent) (h : q.full = true) :
    q.put_nowait e = none := by
  simp [Queue.put_nowait, h]

/-- A queue with headroom accepts the non-blocking put, appending. -/
lemma put_nowait_of_not_full (q : Queue) (e : StreamEvent) (h : q.full = false) :
    q.put_nowait e = some { maxsize := q.maxsize, items := q.items ++ [e] } := by
  simp [Queue.put_nowait, h]

/-- A successful non-blocking put appends the event and keeps the bound. -/
lemma put_nowait_some_eq (q : Queue) (e : StreamEvent) (q' : Queue)
    (h : q.put_nowait e = some q') :
    q'.items = q.items ++ [e] ∧ q'.maxsize = q.maxsize := by
  by_cases hf : q.full
  · simp [Queue.put_nowait, hf] at h
  · rw [Bool.not_eq_true] at hf
    rw [put_nowait_of_not_full q e hf] at h
    cases h
    exact ⟨rfl, rfl⟩

/-- The replay loop enqueues an initial prefix of its input in order,
counts exactly what it enqueued, preserves the capacity, and only stops
early on a full queue. -/
lemma replayLoop_spec :
    ∀ (evs : List StreamEvent) (q : Queue),
      (replayLoop evs q).1 ≤ evs.length ∧
      (replayLoop evs q).2.items = q.items ++ evs.take (replayLoop evs q).1 ∧
      (replayLoop evs q).2.maxsize = q.maxsize ∧
      ((replayLoop evs q).1 < evs.length → (replayLoop evs q).2.full = true) := by
  intro evs
  induction evs with
  | nil =>
    intro q
    simp [replayLoop]
  | cons e es ih =>
    intro q
    cases hput : q.put_nowait e with
    | none =>
      have hfull : q.full = true := by
        cases hf : q.full with
        | true => rfl
        | false =>
          rw [put_nowait_of_not_full q e hf] at hput
          cases hput
      simp [replayLoop, hput, hfull]
    | some q' =>
      obtain ⟨hqi, hqm⟩ := put_nowait_some_eq q e q' hput
      obtain ⟨ih1, ih2, ih3, ih4⟩ := ih q'
      simp only [replayLoop, hput]
      refine ⟨?_, ?_, ?_, ?_⟩
      · simpa using Nat.succ_le_succ ih1
      · rw [List.take_succ_cons, ih2, hqi, List.append_assoc, List.singleton_append]
      · rw [ih3, hqm]
      · intro hlt
        apply ih4
        simp only [List.length_cons] at hlt
        omega

/-- C7: replay_events enqueues onto the target queue exactly an initial
prefix of the history suffix after the resume id, in original order,
returns exactly the number of events it enqueued, and stops early (without
error) only when the target queue has become full. -/
theorem replay_into_take :
    ∀ (m : StreamManager) (lid : String) (q : Queue),
      (m.replay_events lid q).2.1.items
        = q.items ++ (m.event_history.get_events_after lid).1.take (m.replay_events lid q).1 ∧
      (m.replay_events lid q).1 ≤ (m.event_history.get_events_after lid).1.length ∧
      (m.replay_events lid q).2.1.items.length
        = q.items.length + (m.replay_events lid q).1 ∧
      ((m.replay_events lid q).1 < (m.event_history.get_events_after lid).1.length →
        (m.replay_events lid q).2.1.full = true) := by
  intro m lid q
  obtain ⟨h1, h2, h3, h4⟩ := replayLoop_spec (m.event_history.get_events_after lid).1 q
  simp only [StreamManager.replay_events]
  refine ⟨h2, h1, ?_, h4⟩
  rw [h2, List.length_append, List.length_take]
  omega

/-- Witness for C7: replaying e2, e3 after resume id e1 into a capacity-1
queue enqueues one event and leaves the queue full. -/
theorem replay_into_take_witness :
    ((([mkEv 1, mkEv 2, mkEv 3].foldl StreamManager.broadcast
        (StreamManager.init 100 10)).replay_events "e1"
        { maxsize := 1, items := [] }).2.1.full = true)
    ∧ ((([mkEv 1, mkEv 2, mkEv 3].foldl StreamManager.broadcast
        (StreamManager.init 100 10)).replay_events "e1"
        { maxsize := 1, items := [] }).1 = 1) :=
  ⟨(replay_into_take ([mkEv 1, mkEv 2, mkEv 3].foldl StreamManager.broadcast
      (StreamManager.init 100 10)) "e1" { maxsize := 1, items := [] }).2.2.2 (by decide),
   by decide⟩

/-- Membership after a fold of unregisters: still registered and not among
the removed ids. -/
lemma mem_foldl_unregister :
    ∀ (ds : List String) (m : StreamManager) (x : String × ClientInfo),
      (x ∈ (ds.foldl StreamManager.unregister_client m).clients ↔
        x ∈ m.clients ∧ ∀ d ∈ ds, x.1 ≠ d) := by
  intro ds
  induction ds with
  | nil =>
    intro m x
    simp
  | cons d ds ih =>
    intro m x
    rw [List.foldl_cons, ih]
    unfold StreamManager.unregister_client
    simp only [List.mem_filter, List.forall_mem_cons, Bool.not_eq_true',
      beq_eq_false_iff_ne]
    tauto

/-- A fold of unregisters changes neither the history nor the configured
queue capacity. -/
lemma foldl_unregister_frame :
    ∀ (ds : List String) (m : StreamManager),
      (ds.foldl StreamManager.unregister_client m).event_history = m.event_history ∧
      (ds.foldl StreamManager.unregister_client m).max_queue_size = m.max_queue_size := by
  intro ds
  induction ds with
  | nil => intro m; exact ⟨rfl, rfl⟩
  | cons d ds ih =>
    intro m
    rw [List.foldl_cons]
    exact ih (m.unregister_client d)

/-- Broadcast records the event in the history before touching sessions. -/
lemma broadcast_event_history (m : StreamManager) (e : StreamEvent) :
    (m.broadcast e).event_history = m.event_history.add e :=
  (foldl_unregister_frame (broadcastLoop e m.clients).2
    { m with event_history := m.event_history.add e,
             clients := (broadcastLoop e m.clients).1 }).1

/-- Broadcast never changes the configured queue capacity. -/
lemma broadcast_max_queue_size (m : StreamManager) (e : StreamEvent) :
    (m.broadcast e).max_queue_size = m.max_queue_size :=
  (foldl_unregister_frame (broadcastLoop e m.clients).2
    { m with event_history := m.event_history.add e,
             clients := (broadcastLoop e m.clients).1 }).2

/-- The registry after a broadcast, expressed through the loop result. -/
lemma broadcast_clients_eq (m : StreamManager) (e : StreamEvent) :
    (m.broadcast e).clients
      = ((broadcastLoop e m.clients).2.foldl StreamManager.unregister_client
          { m with event_history := m.event_history.add e,
                   clients := (broadcastLoop e m.clients).1 }).clients := rfl

/-- The broadcast loop on the empty snapshot. -/
lemma broadcastLoop_nil (e : StreamEvent) : broadcastLoop e [] = ([], []) := rfl

/-- One loop step when the head session's queue accepts the event. -/
lemma broadcastLoop_cons_some (e : StreamEvent) (cid : String) (ci : ClientInfo)
    (rest : List (String × ClientInfo)) (q' : Queue)
    (h : ci.queue.put_nowait e = some q') :
    broadcastLoop e ((cid, ci) :: rest)
      = ((cid, { ci with queue := q', events_received := ci.events_received + 1 })
           :: (broadcastLoop e rest).1,
         (broadcastLoop e rest).2) := by
  simp [broadcastLoop, h]

/-- One loop step when the head session's queue is full. -/
lemma broadcastLoop_cons_none (e : StreamEvent) (cid : String) (ci : ClientInfo)
    (rest : List (String × ClientInfo))
    (h : ci.queue.put_nowait e = none) :
    broadcastLoop e ((cid, ci) :: rest)
      = ((cid, ci) :: (broadcastLoop e rest).1, cid :: (broadcastLoop e rest).2) := by
  simp [broadcastLoop, h]

/-- Every session surviving the loop pass originates from the snapshot:
either its put succeeded and it was updated, or its put failed, it is
unchanged and its id is marked disconnected. -/
lemma mem_broadcastLoop_fst (e : StreamEvent) :
    ∀ (cs : List (String × ClientInfo)) (cid : String) (ci : ClientInfo),
      (cid, ci) ∈ (broadcastLoop e cs).1 →
      ∃ ci0, (cid, ci0) ∈ cs ∧
        ((∃ q', ci0.queue.put_nowait e = some q' ∧
            ci = { ci0 with queue := q', events_received := ci0.events_received + 1 })
         ∨ (ci0.queue.put_nowait e = none ∧ ci = ci0 ∧ cid ∈ (broadcastLoop e cs).2)) := by
  intro cs
  induction cs with
  | nil =>
    intro cid ci h
    rw [broadcastLoop_nil] at h
    cases h
  | cons p rest ih =>
    obtain ⟨pcid, pci⟩ := p
    intro cid ci h
    cases hput : pci.queue.put_nowait e with
    | some q' =>
      rw [broadcastLoop_cons_some e pcid pci rest q' hput] at h ⊢
      rcases List.mem_cons.mp h with h1 | h2
      · injection h1 with ha hb
        subst ha
        exact ⟨pci, List.mem_cons_self _ _, Or.inl ⟨q', hput, hb⟩⟩
      · obtain ⟨ci0, hmem, hcase⟩ := ih cid ci h2
        exact ⟨ci0, List.mem_cons_of_mem _ hmem, hcase⟩
    | none =>
      rw [broadcastLoop_cons_none e pcid pci rest hput] at h ⊢
      rcases List.mem_cons.mp h with h1 | h2
      · injection h1 with ha hb
        subst ha
        exact ⟨pci, List.mem_cons_self _ _,
          Or.inr ⟨hput, hb, List.mem_cons_self _ _⟩⟩
      · obtain ⟨ci0, hmem, hcase⟩ := ih cid ci h2
        refine ⟨ci0, List.mem_cons_of_mem _ hmem, ?_⟩
        rcases hcase with hs | ⟨hf1, hf2, hf3⟩
        · exact Or.inl hs
        · exact Or.inr ⟨hf1, hf2, List.mem_cons_of_mem _ hf3⟩

/-- A session whose queue rejects the event gets its id marked
disconnected by the loop. -/
lemma mem_disc_of_full (e : StreamEvent) :
    ∀ (cs : List (String × ClientInfo)) (cid : String) (ci : ClientInfo),
      (cid, ci) ∈ cs → ci.queue.put_nowait e = none →
      cid ∈ (broadcastLoop e cs).2 := by
  intro cs
  induction cs with
  | nil =>
    intro cid ci h _
    cases h
  | cons p rest ih =>
    obtain ⟨pcid, pci⟩ := p
    intro cid ci h hput
    rcases List.mem_cons.mp h with h1 | h2
    · injection h1 with ha hb
      subst ha
      subst hb
      rw [broadcastLoop_cons_none e cid ci rest hput]
      exact List.mem_cons_self _ _
    · cases hp : pci.queue.put_nowait e with
      | some q' =>
        rw [broadcastLoop_cons_some e pcid pci rest q' hp]
        exact ih cid ci h2 hput
      | none =>
        rw [broadcastLoop_cons_none e pcid pci rest hp]
        exact List.mem_cons_of_mem _ (ih cid ci h2 hput)

/-- A session whose queue accepts the event survives the loop pass with
the event appended and its counter bumped. -/
lemma mem_fst_of_some (e : StreamEvent) :
    ∀ (cs : List (String × ClientInfo)) (cid : String) (ci : ClientInfo) (q' : Queue),
      (cid, ci) ∈ cs → ci.queue.put_nowait e = some q' →
      (cid, { ci with queue := q', events_received := ci.events_received + 1 })
        ∈ (broadcastLoop e cs).1 := by
  intro cs
  induction cs with
  | nil =>
    intro cid ci q' h _
    cases h
  | cons p rest ih =>
    obtain ⟨pcid, pci⟩ := p
    intro cid ci q' h hput
    rcases List.mem_cons.mp h with h1 | h2
    · injection h1 with ha hb
      subst ha
      subst hb
      rw [broadcastLoop_cons_some e cid ci rest q' hput]
      exact List.mem_cons_self _ _
    · cases hp : pci.queue.put_nowait e with
      | some pq =>
        rw [broadcastLoop_cons_some e pcid pci rest pq hp]
        exact List.mem_cons_of_mem _ (ih cid ci q' h2 hput)
      | none =>
        rw [broadcastLoop_cons_none e pcid pci rest hp]
        exact List.mem_cons_of_mem _ (ih cid ci q' h2 hput)

/-- Every disconnected id comes from a snapshot session whose put failed. -/
lemma mem_disc_exists (e : StreamEvent) :
    ∀ (cs : List (String × ClientInfo)) (d : String),
      d ∈ (broadcastLoop e cs).2 →
      ∃ cj, (d, cj) ∈ cs ∧ cj.queue.put_nowait e = none := by
  intro cs
  induction cs with
  | nil =>
    intro d h
    rw [broadcastLoop_nil] at h
    cases h
  | cons p rest ih =>
    obtain ⟨pcid, pci⟩ := p
    intro d h
    cases hp : pci.queue.put_nowait e with
    | some q' =>
      rw [broadcastLoop_cons_some e pcid pci rest q' hp] at h
      obtain ⟨cj, hm, hput⟩ := ih d h
      exact ⟨cj, List.mem_cons_of_mem _ hm, hput⟩
    | none =>
      rw [broadcastLoop_cons_none e pcid pci rest hp] at h
      rcases List.mem_cons.mp h with h1 | h2
      · subst h1
        exact ⟨pci, List.mem_cons_self _ _, hp⟩
      · obtain ⟨cj, hm, hput⟩ := ih d h2
        exact ⟨cj, List.mem_cons_of_mem _ hm, hput⟩

/-- With unique registry keys, a key determines its session. -/
lemma keys_nodup_eq :
    ∀ (cs : List (String × ClientInfo)) (cid : String) (ci cj : ClientInfo),
      (cs.map Prod.fst).Nodup → (cid, ci) ∈ cs → (cid, cj) ∈ cs → ci = cj := by
  intro cs
  induction cs with
  | nil =>
    intro cid ci cj _ h
    cases h
  | cons p rest ih =>
    obtain ⟨pcid, pci⟩ := p
    intro cid ci cj hnd hi hj
    rw [List.map_cons] at hnd
    have hnd' := List.nodup_cons.mp hnd
    rcases List.mem_cons.mp hi with hi1 | hi2
    · rcases List.mem_cons.mp hj with hj1 | hj2
      · injection hi1 with h1a h1b
        injection hj1 with h2a h2b
        rw [h1b, h2b]
      · injection hi1 with h1a h1b
        exfalso
        apply hnd'.1
        rw [← h1a]
        have hjm := List.mem_map_of_mem Prod.fst hj2
        exact hjm
    · rcases List.mem_cons.mp hj with hj1 | hj2
      · injection hj1 with h1a h1b
        exfalso
        apply hnd'.1
        rw [← h1a]
        have him := List.mem_map_of_mem Prod.fst hi2
        exact him
      · exact ih cid ci cj hnd'.2 hi2 hj2

/-- Every session registered after a broadcast received the event: it
originates from a pre-broadcast session whose put succeeded. -/
lemma broadcast_mem_success (m : StreamManager) (e : StreamEvent) (cid : String)
    (ci : ClientInfo) (h : (cid, ci) ∈ (m.broadcast e).clients) :
    ∃ ci0, (cid, ci0) ∈ m.clients ∧ ∃ q', ci0.queue.put_nowait e = some q' ∧
      ci = { ci0 with queue := q', events_received := ci0.events_received + 1 } := by
  rw [broadcast_clients_eq] at h
  have hm := (mem_foldl_unregister _ _ _).mp h
  obtain ⟨ci0, hmem, hcase⟩ := mem_broadcastLoop_fst e m.clients cid ci hm.1
  rcases hcase with hs | hf
  · exact ⟨ci0, hmem, hs⟩
  · exact absurd rfl (hm.2 cid hf.2.2)

/-- With unique keys, a session whose queue has headroom survives a
broadcast with the event appended at the tail of its queue. -/
lemma broadcast_mem_notfull (m : StreamManager) (e : StreamEvent) (cid : String)
    (ci : ClientInfo) (hnd : (m.clients.map Prod.fst).Nodup)
    (hmem : (cid, ci) ∈ m.clients) (hnf : ci.queue.full = false) :
    (cid,
      { ci with
        queue := { maxsize := ci.queue.maxsize, items := ci.queue.items ++ [e] },
        events_received := ci.events_received + 1 }) ∈ (m.broadcast e).clients := by
  have hput := put_nowait_of_not_full ci.queue e hnf
  rw [broadcast_clients_eq]
  apply (mem_foldl_unregister _ _ _).mpr
  refine ⟨mem_fst_of_some e m.clients cid ci _ hmem hput, ?_⟩
  intro d hd heq
  obtain ⟨cj, hcj, hcjput⟩ := mem_disc_exists e m.clients d hd
  rw [← heq] at hcj
  have hji : cj = ci := keys_nodup_eq m.clients cid cj ci hnd hcj hmem
  rw [hji, hput] at hcjput
  cases hcjput

/-- A session whose queue is at capacity is removed from the registry by
the broadcast that overflows it. -/
lemma broadcast_full_removed (m : StreamManager) (e : StreamEvent) (cid : String)
    (ci : ClientInfo) (hmem : (cid, ci) ∈ m.clients) (hfull : ci.queue.full = true) :
    ∀ ci', (cid, ci') ∉ (m.broadcast e).clients := by
  intro ci' h
  rw [broadcast_clients_eq] at h
  have hm := (mem_foldl_unregister _ _ _).mp h
  exact hm.2 cid
    (mem_disc_of_full e m.clients cid ci hmem (put_nowait_of_full _ _ hfull)) rfl

/-- Two adds with capacity at least two leave the two new events as the
most recent pair, in order. -/
lemma dequePush_two (N : Nat) (hN : 2 ≤ N) (b : List StreamEvent) (A B : StreamEvent) :
    ∃ pre, dequePush N (dequePush N b A) B = pre ++ [A, B] := by
  unfold dequePush
  have h1 : (b ++ [A]).drop ((b ++ [A]).length - N)
      = b.drop ((b ++ [A]).length - N) ++ [A] := by
    apply List.drop_append_of_le_length
    simp only [List.length_append, List.length_cons, List.length_nil]
    omega
  rw [h1]
  set L1 := b.drop ((b ++ [A]).length - N) with hL1
  have hlen1 : L1.length = b.length - ((b ++ [A]).length - N) := List.length_drop _ _
  refine ⟨L1.drop ((L1 ++ [A] ++ [B]).length - N), ?_⟩
  rw [List.append_assoc]
  apply List.drop_append_of_le_length
  simp only [List.length_append, List.length_cons, List.length_nil] at hlen1 ⊢
  omega

/-- C2: every session still registered after two serialized broadcasts of
A then B received them appended in that order at the tail of its queue;
every broadcast records its event in the history regardless of the number
of sessions; and with capacity at least two the history records A
immediately before B. -/
theorem broadcast_ordering :
    (∀ (m : StreamManager) (A B : StreamEvent) (cid : String) (ci : ClientInfo),
        (cid, ci) ∈ ((m.broadcast A).broadcast B).clients →
        ∃ ci0, (cid, ci0) ∈ m.clients ∧ ci.queue.items = ci0.queue.items ++ [A, B])
    ∧ (∀ (m : StreamManager) (e : StreamEvent),
        (m.broadcast e).event_history = m.event_history.add e)
    ∧ (∀ (m : StreamManager) (A B : StreamEvent),
        2 ≤ m.event_history.max_size →
        ∃ pre, ((m.broadcast A).broadcast B).event_history.buffer = pre ++ [A, B]) := by
  refine ⟨?_, broadcast_event_history, ?_⟩
  · intro m A B cid ci h
    obtain ⟨ci1, h1, q1, hput1, hci⟩ := broadcast_mem_success (m.broadcast A) B cid ci h
    obtain ⟨ci0, h0, q0, hput0, hci1⟩ := broadcast_mem_success m A cid ci1 h1
    refine ⟨ci0, h0, ?_⟩
    have e1 := (put_nowait_some_eq _ _ _ hput1).1
    have e0 := (put_nowait_some_eq _ _ _ hput0).1
    rw [hci]
    show q1.items = ci0.queue.items ++ [A, B]
    rw [e1, hci1]
    show q0.items ++ [B] = ci0.queue.items ++ [A, B]
    rw [e0, List.append_assoc]
    rfl
  · intro m A B hN
    have hh : ((m.broadcast A).broadcast B).event_history
        = (m.event_history.add A).add B := by
      rw [broadcast_event_history, broadcast_event_history]
    rw [hh]
    have hmax : (m.event_history.add A).max_size = m.event_history.max_size := rfl
    rw [add_buffer_eq, add_buffer_eq, hmax]
    exact dequePush_two m.event_history.max_size hN m.event_history.buffer A B

/-- Witness for C2: a concrete capacity-2 session receives two broadcast
events in order, and the history holds them as its most recent pair. -/
theorem broadcast_ordering_witness :
    (∃ ci0, ("a", ci0) ∈ ((StreamManager.init 2 5).register_client "a"
        none none none).clients ∧
      ({ client_id := "a", queue := { maxsize := 2, items := [mkEv 21, mkEv 22] },
         client_name := "anonymous", tags := [], topics := none,
         events_received := 2 } : ClientInfo).queue.items
        = ci0.queue.items ++ [mkEv 21, mkEv 22])
    ∧ (∃ pre, (((((StreamManager.init 2 5).register_client "a" none none none)).broadcast
          (mkEv 21)).broadcast (mkEv 22)).event_history.buffer
        = pre ++ [mkEv 21, mkEv 22]) :=
  ⟨broadcast_ordering.1 ((StreamManager.init 2 5).register_client "a" none none none)
      (mkEv 21) (mkEv 22) "a"
      { client_id := "a", queue := { maxsize := 2, items := [mkEv 21, mkEv 22] },
        client_name := "anonymous", tags := [], topics := none, events_received := 2 }
      (by decide),
   broadcast_ordering.2.2 ((StreamManager.init 2 5).register_client "a" none none none)
      (mkEv 21) (mkEv 22) (by decide)⟩

/-- Broadcasting a sequence that fits into the headroom of the single
registered session delivers every event in order, in one queue append per
broadcast, and never disconnects the session. -/
lemma fill_single :
    ∀ (es : List StreamEvent) (m : StreamManager) (a : String) (ci : ClientInfo),
      m.clients = [(a, ci)] →
      ci.queue.items.length + es.length ≤ ci.queue.maxsize →
      (es.foldl StreamManager.broadcast m).clients
        = [(a,
            { ci with
              queue := { maxsize := ci.queue.maxsize, items := ci.queue.items ++ es },
              events_received := ci.events_received + es.length })] ∧
      (es.foldl StreamManager.broadcast m).max_queue_size = m.max_queue_size := by
  intro es
  induction es with
  | nil =>
    intro m a ci hc _
    refine ⟨?_, rfl⟩
    rw [List.foldl_nil, hc]
    simp
  | cons e es ih =>
    intro m a ci hc hlen
    rw [List.foldl_cons]
    simp only [List.length_cons] at hlen
    have hnf : ci.queue.full = false := by
      unfold Queue.full
      have hlt : ¬ (ci.queue.maxsize ≤ ci.queue.items.length) := by omega
      simp [hlt]
    have hput := put_nowait_of_not_full ci.queue e hnf
    have hbc : (m.broadcast e).clients
        = [(a,
            { ci with
              queue := { maxsize := ci.queue.maxsize, items := ci.queue.items ++ [e] },
              events_received := ci.events_received + 1 })] := by
      rw [broadcast_clients_eq, hc,
        broadcastLoop_cons_some e a ci [] _ hput, broadcastLoop_nil]
      rfl
    have hmqs := broadcast_max_queue_size m e
    obtain ⟨ih1, ih2⟩ := ih (m.broadcast e) a
      { ci with
        queue := { maxsize := ci.queue.maxsize, items := ci.queue.items ++ [e] },
        events_received := ci.events_received + 1 }
      hbc
      (by
        show (ci.queue.items ++ [e]).length + es.length ≤ ci.queue.maxsize
        simp only [List.length_append, List.length_cons, List.length_nil]
        omega)
    refine ⟨?_, ?_⟩
    · rw [ih1]
      simp only [List.cons.injEq, Prod.mk.injEq, ClientInfo.mk.injEq, Queue.mk.injEq,
        List.append_assoc, List.singleton_append, List.length_cons, true_and, and_true]
      omega
    · rw [ih2, hmqs]

/-- C1: exact, non-blocking backpressure.  In the scenario with one
session of capacity C, after C broadcasts its queue holds exactly those C
events and is full; the (C+1)th broadcast (a single non-blocking put
attempt, no retry) removes it from the registry while a freshly registered
session with an empty queue receives that event.  In general, a broadcast
removes every session whose queue is at capacity and delivers (appending
to the queue tail) to every session whose queue is not. -/
theorem broadcast_backpressure (C H : Nat) (hC : 0 < C) (a b : String) (hab : a ≠ b)
    (es : List StreamEvent) (hlen : es.length = C) (e' : StreamEvent) :
    (∃ ci, (es.foldl StreamManager.broadcast
        ((StreamManager.init C H).register_client a none none none)).findClient a = some ci
      ∧ ci.queue.items = es ∧ ci.queue.full = true)
    ∧ ((((es.foldl StreamManager.broadcast
        ((StreamManager.init C H).register_client a none none none)).register_client
          b none none none).broadcast e').findClient a = none)
    ∧ (∃ ci, (((es.foldl StreamManager.broadcast
        ((StreamManager.init C H).register_client a none none none)).register_client
          b none none none).broadcast e').findClient b = some ci
      ∧ ci.queue.items = [e'] ∧ ci.events_received = 1)
    ∧ (∀ (m : StreamManager) (e : StreamEvent) (cid : String) (ci : ClientInfo),
        (cid, ci) ∈ m.clients → ci.queue.full = true →
        ∀ ci', (cid, ci') ∉ (m.broadcast e).clients)
    ∧ (∀ (m : StreamManager) (e : StreamEvent) (cid : String) (ci : ClientInfo),
        (m.clients.map Prod.fst).Nodup → (cid, ci) ∈ m.clients → ci.queue.full = false →
        (cid,
          { ci with
            queue := { maxsize := ci.queue.maxsize, items := ci.queue.items ++ [e] },
            events_received := ci.events_received + 1 }) ∈ (m.broadcast e).clients) := by
  set m0 := (StreamManager.init C H).register_client a none none none with hm0def
  have hm0c : m0.clients = [(a, freshClient a C)] := rfl
  obtain ⟨h1c, h1m⟩ := fill_single es m0 a (freshClient a C) hm0c
    (by simp [freshClient, hlen])
  set m1 := es.foldl StreamManager.broadcast m0 with hm1def
  have hmq : m1.max_queue_size = C := h1m
  have hci1 : m1.clients = [(a, filledClient a C es)] := by
    rw [h1c]
    simp [freshClient, filledClient]
  have hfull : (filledClient a C es).queue.full = true := by
    unfold Queue.full
    simp [filledClient, hlen, hC]
  have hfind1 : m1.findClient a = some (filledClient a C es) := by
    unfold StreamManager.findClient
    rw [hci1]
    simp [List.find?_cons]
  set mb := m1.register_client b none none none with hmbdef
  have hmbc0 : mb.clients
      = m1.clients ++ [(b, freshClient b m1.max_queue_size)] := rfl
  rw [hci1, hmq] at hmbc0
  have hmbc : mb.clients = [(a, filledClient a C es), (b, freshClient b C)] := by
    rw [hmbc0]
    rfl
  have hputa : (filledClient a C es).queue.put_nowait e' = none :=
    put_nowait_of_full _ _ hfull
  have hnfb : (freshClient b C).queue.full = false := by
    unfold Queue.full
    have h0 : ¬ (C ≤ 0) := by omega
    simp [freshClient, h0]
  have hputb := put_nowait_of_not_full (freshClient b C).queue e' hnfb
  have hba : (b == a) = false := beq_eq_false_iff_ne.mpr (Ne.symm hab)
  have hm2c : (mb.broadcast e').clients = [(b, filledClient b C [e'])] := by
    rw [broadcast_clients_eq, hmbc,
      broadcastLoop_cons_none e' a _ _ hputa,
      broadcastLoop_cons_some e' b _ [] _ hputb, broadcastLoop_nil]
    simp [StreamManager.unregister_client, List.filter, hba, freshClient, filledClient]
  refine ⟨⟨_, hfind1, rfl, hfull⟩, ?_, ?_, ?_, ?_⟩
  · unfold StreamManager.findClient
    rw [hm2c]
    simp [List.find?_cons, hba]
  · refine ⟨filledClient b C [e'], ?_, rfl, rfl⟩
    unfold StreamManager.findClient
    rw [hm2c]
    simp [List.find?_cons]
  · intro m e cid ci hmem hf
    exact broadcast_full_removed m e cid ci hmem hf
  · intro m e cid ci hnd hmem hnf
    exact broadcast_mem_notfull m e cid ci hnd hmem hnf

/-- Witness for C1: with capacity 2, two broadcasts fill the session, the
third removes it while the freshly registered session receives that event;
a concrete at-capacity session is removed by a broadcast and a concrete
session with headroom receives the event. -/
theorem broadcast_backpressure_witness :
    (∃ ci, ([mkEv 11, mkEv 12].foldl StreamManager.broadcast
        ((StreamManager.init 2 4).register_client "a" none none none)).findClient "a"
          = some ci
      ∧ ci.queue.items = [mkEv 11, mkEv 12] ∧ ci.queue.full = true)
    ∧ (((([mkEv 11, mkEv 12].foldl StreamManager.broadcast
        ((StreamManager.init 2 4).register_client "a" none none none)).register_client
          "b" none none none).broadcast (mkEv 13)).findClient "a" = none)
    ∧ (∃ ci, ((([mkEv 11, mkEv 12].foldl StreamManager.broadcast
        ((StreamManager.init 2 4).register_client "a" none none none)).register_client
          "b" none none none).broadcast (mkEv 13)).findClient "b" = some ci
      ∧ ci.queue.items = [mkEv 13] ∧ ci.events_received = 1)
    ∧ (("w", wFullCi) ∉ (wFullMgr.broadcast (mkEv 14)).clients)
    ∧ (("v",
        { vRoomCi with
          queue := { maxsize := vRoomCi.queue.maxsize,
                     items := vRoomCi.queue.items ++ [mkEv 15] },
          events_received := vRoomCi.events_received + 1 })
        ∈ (vRoomMgr.broadcast (mkEv 15)).clients) := by
  obtain ⟨h1, h2, h3, h4, h5⟩ :=
    broadcast_backpressure 2 4 (by decide) "a" "b" (by decide) [mkEv 11, mkEv 12] rfl
      (mkEv 13)
  exact ⟨h1, h2, h3,
    h4 wFullMgr (mkEv 14) "w" wFullCi (by decide) (by decide) wFullCi,
    h5 vRoomMgr (mkEv 15) "v" vRoomCi (by decide) (by decide) (by decide)⟩

end Streaming
